import Mathlib

/-!
# Conway's Game of Life on a 30x30 torus (`game_of_life.cpp`)

A shallow embedding of the simulation core of `src/game_of_life.cpp`:
`mod`, `get_cell`, `set_cell`, `draw`, `neighbors`, `tick` and the event
dispatch of `main`.

Modelling conventions.

* `int` values are mathematical integers (`Int`); every signed arithmetic
  result passes through `chk`, which fails with `Fault.overflow` when the
  result leaves the 32-bit range (signed overflow is undefined in C++).
* `%` and `/` on `int` truncate toward zero: `Int.tmod`, `Int.tdiv`.
* A cell buffer (`std::unique_ptr<uint32_t[]>`) is a list of cell values.
  Every access goes through `readCell` / `writeCell`, which fail with
  `Fault.outOfRange` when the index is not inside the buffer.
* Functions that mutate a buffer return the new buffer; `tick`, which
  swaps its two arguments, returns the pair (current, next) after the swap.
-/

namespace GameOfLife

/-! ## Constants -/

def SCALE : Int := 25
def WIDTH : Int := 30
def HEIGHT : Int := 30
def BOARD_SIZE : Nat := (WIDTH * HEIGHT).toNat
def OFF : Nat := 0x00000000
def ON : Nat := 0xFFFFFFFF

def INT_MIN : Int := -2147483648
def INT_MAX : Int := 2147483647

/-! ## Faults and checked arithmetic -/

/-- The ways an execution can leave defined behaviour. -/
inductive Fault where
  | overflow
  | divByZero
  | outOfRange
  deriving DecidableEq, Repr

/-- Cell buffers: the contents of a `uint32_t[]` allocation. -/
abbrev cells := List Nat

/-- A signed 32-bit result: the value itself when representable. -/
def chk (v : Int) : Except Fault Int :=
  if INT_MIN ≤ v ∧ v ≤ INT_MAX then .ok v else .error .overflow

/-- Read `buffer[i]`, the `int` index converted to `size_t`. -/
def readCell (generation : cells) (i : Int) : Except Fault Nat :=
  if 0 ≤ i ∧ i < generation.length then .ok (generation.getD i.toNat 0)
  else .error .outOfRange

/-- Assign `buffer[i] = value`. -/
def writeCell (generation : cells) (i : Int) (value : Nat) : Except Fault cells :=
  if 0 ≤ i ∧ i < generation.length then .ok (generation.set i.toNat value)
  else .error .outOfRange

/-- Conversion of a `size_t` to `int` (two's complement narrowing). -/
def toInt32 (n : Nat) : Int :=
  ((n : Int) + 2147483648) % 4294967296 - 2147483648

/-! ## The program -/

/-- Source `mod`: `ret = a % b; if (ret < 0) ret += b; return ret;`. -/
def mod (a b : Int) : Except Fault Int :=
  if b = 0 then .error .divByZero
  else if a = INT_MIN ∧ b = -1 then .error .overflow
  else
    let ret := Int.tmod a b
    if ret < 0 then chk (ret + b) else .ok ret

/-- The flat index `y * WIDTH + x` used by `get_cell`, `set_cell`, `tick`. -/
def flatIndex (x y : Int) : Except Fault Int := do
  let p ← chk (y * WIDTH)
  chk (p + x)

/-- Source `get_cell`: `generation[y * WIDTH + x]`. -/
def get_cell (generation : cells) (x y : Int) : Except Fault Nat := do
  let i ← flatIndex x y
  readCell generation i

/-- Source `set_cell`: `generation[y * WIDTH + x] = value`. -/
def set_cell (generation : cells) (x y : Int) (value : Nat) : Except Fault cells := do
  let i ← flatIndex x y
  writeCell generation i value

/-- Source `draw`: toggle the cell under pixel `(x, y)`. -/
def draw (current_generation : cells) (x y : Int) : Except Fault cells := do
  let scaled_x := Int.tdiv x SCALE
  let scaled_y := Int.tdiv y SCALE
  let cell_value ← get_cell current_generation scaled_x scaled_y
  let next_state := if cell_value ≠ 0 then OFF else ON
  set_cell current_generation scaled_x scaled_y next_state

/-- One of the eight probes of `neighbors`:
`if (g[mod(x+dx, WIDTH) + mod(y+dy, HEIGHT) * WIDTH]) count++`. -/
def probe (current_generation : cells) (x y dx dy : Int) (count : Nat) :
    Except Fault Nat := do
  let xs ← chk (x + dx)
  let mx ← mod xs WIDTH
  let ys ← chk (y + dy)
  let my ← mod ys HEIGHT
  let row ← chk (my * WIDTH)
  let i ← chk (mx + row)
  let v ← readCell current_generation i
  pure (if v ≠ 0 then count + 1 else count)

/-- Source `neighbors`: the eight probes in source order (right, bottom
right, bottom, bottom left, left, top left, top, top right). -/
def neighbors (current_generation : cells) (x y : Int) : Except Fault Nat := do
  let count := 0
  let count ← probe current_generation x y 1 0 count
  let count ← probe current_generation x y 1 1 count
  let count ← probe current_generation x y 0 1 count
  let count ← probe current_generation x y (-1) 1 count
  let count ← probe current_generation x y (-1) 0 count
  let count ← probe current_generation x y (-1) (-1) count
  let count ← probe current_generation x y 0 (-1) count
  let count ← probe current_generation x y 1 (-1) count
  pure count

/-- The loop `for (int i = 0; i < n; i++) body`, threading the state. -/
def forLoop {σ : Type} (n : Nat) (body : Int → σ → Except Fault σ) (s : σ) :
    Except Fault σ :=
  (List.range n).foldlM (fun (s : σ) (i : Nat) => body (i : Int) s) s

/-- The `memcpy` of `BOARD_SIZE` cells from `src` over the start of `dst`. -/
def memcpyBoard (dst src : cells) : Except Fault cells :=
  if BOARD_SIZE ≤ dst.length ∧ BOARD_SIZE ≤ src.length then
    .ok (src.take BOARD_SIZE ++ dst.drop BOARD_SIZE)
  else .error .outOfRange

/-- The body of the inner loop of `tick` for one `(x, y)`. -/
def tickCell (current_generation : cells) (x y : Int) (next_generation : cells) :
    Except Fault cells := do
  let i ← flatIndex x y
  let current_cell ← readCell current_generation i
  let n ← neighbors current_generation x y
  let live_neighbors := toInt32 n
  let next_generation ←
    if current_cell ≠ 0 ∧ ¬(live_neighbors = 2 ∨ live_neighbors = 3) then
      writeCell next_generation i OFF
    else pure next_generation
  if current_cell = 0 ∧ live_neighbors = 3 then
    writeCell next_generation i ON
  else pure next_generation

/-- Source `tick`: copy, apply the rule cell by cell, swap. The result is
the pair (current_generation, next_generation) after the swap. -/
def tick (current_generation next_generation : cells) :
    Except Fault (cells × cells) := do
  let next_generation ← memcpyBoard next_generation current_generation
  let next_generation ←
    forLoop HEIGHT.toNat (fun y next_generation =>
      forLoop WIDTH.toNat (fun x next_generation =>
        tickCell current_generation x y next_generation) next_generation)
      next_generation
  pure (next_generation, current_generation)

/-! ## Vocabulary of the specification -/

/-- The value stored for grid coordinate `(x, y)` (row-major order). -/
def cellAt (g : cells) (x y : Int) : Nat :=
  g.getD (y * WIDTH + x).toNat 0

/-- A cell is alive when its stored value is non-zero. -/
def alive (g : cells) (x y : Int) : Prop :=
  cellAt g x y ≠ 0

instance (g : cells) (x y : Int) : Decidable (alive g x y) :=
  inferInstanceAs (Decidable (cellAt g x y ≠ 0))

/-- The offsets `{-1,0,1} x {-1,0,1}` other than `(0,0)`. -/
def specOffsets : List (Int × Int) :=
  (List.product [-1, 0, 1] [-1, 0, 1]).filter (fun d => d ≠ (0, 0))

/-- Specification of the neighbour count: the number of offsets whose
wrapped target cell is alive. -/
def specNeighbors (g : cells) (x y : Int) : Nat :=
  specOffsets.countP (fun d => alive g ((x + d.1) % WIDTH) ((y + d.2) % HEIGHT))

/-- The Game-of-Life rule for the cell at `(x, y)` of `g`: the value the
cell holds in the following generation. -/
def nextCell (g : cells) (x y : Int) : Nat :=
  if alive g x y ∧ ¬(specNeighbors g x y = 2 ∨ specNeighbors g x y = 3) then OFF
  else if ¬alive g x y ∧ specNeighbors g x y = 3 then ON
  else cellAt g x y

/-- The board whose cell `(x, y)` holds `f x y`, in row-major order. -/
def tabulate (f : Int → Int → Nat) : cells :=
  (List.range BOARD_SIZE).map (fun (i : Nat) => f ((i : Int) % WIDTH) ((i : Int) / WIDTH))

/-- The one-generation function: every cell replaced by its `nextCell`. -/
def step (g : cells) : cells :=
  tabulate (nextCell g)

/-- State of the `next` buffer once the first `k` cells (row-major) are done. -/
def TickInv (g : cells) (k : Nat) (s : cells) : Prop :=
  s.length = 900 ∧ ∀ j : Nat, j < 900 →
    s.getD j 0 = if j < k then nextCell g ((j : Int) % WIDTH) ((j : Int) / WIDTH)
      else g.getD j 0

/-- The value `draw` stores: `cell_value ? OFF : ON`. -/
def toggled (v : Nat) : Nat := if v ≠ 0 then OFF else ON

/-- The binary cell encoding: every cell is `OFF` or `ON`. -/
def Binary (g : cells) : Prop :=
  ∀ v ∈ g, v = OFF ∨ v = ON

instance (g : cells) : Decidable (Binary g) :=
  inferInstanceAs (Decidable (∀ v ∈ g, v = OFF ∨ v = ON))

/-- A pixel inside the rendered surface of `WIDTH * SCALE` by `HEIGHT * SCALE`. -/
def inSurface (px py : Int) : Prop :=
  0 ≤ px ∧ px < WIDTH * SCALE ∧ 0 ≤ py ∧ py < HEIGHT * SCALE

instance (px py : Int) : Decidable (inSurface px py) :=
  inferInstanceAs (Decidable (0 ≤ px ∧ px < WIDTH * SCALE ∧ 0 ≤ py ∧ py < HEIGHT * SCALE))

/-- Toroidal translation of a grid by `(dx, dy)`:
`shift(g)(x, y) = g((x - dx) mod WIDTH, (y - dy) mod HEIGHT)`. -/
def shift (dx dy : Int) (g : cells) : cells :=
  tabulate (fun x y => cellAt g ((x - dx) % WIDTH) ((y - dy) % HEIGHT))

/-- The grid whose live (`ON`) cells are exactly the listed coordinates. -/
def gridOf (live : List (Int × Int)) : cells :=
  tabulate (fun x y => if (x, y) ∈ live then ON else OFF)

/-- Liveness of `(x, y)` one generation after the pattern whose live cells
are `live`, computed on coordinates alone. -/
def lifeRule (live : List (Int × Int)) (x y : Int) : Bool :=
  let n := specOffsets.countP
    (fun d => decide (((x + d.1) % WIDTH, (y + d.2) % HEIGHT) ∈ live))
  decide (n = 3 ∨ ((x, y) ∈ live ∧ n = 2))

/-- The glider of the specification's example. -/
def glider0 : cells := gridOf [(1, 0), (2, 1), (0, 2), (1, 2), (2, 2)]

/-- A board whose only live cells sit across the seams from `(0, 0)`: the
left neighbour `(29, 0)`, the top neighbour `(0, 29)` and the diagonally
opposite corner `(29, 29)`. -/
def seamBoard : cells := gridOf [(29, 0), (0, 29), (29, 29)]

/-- The cell `(cx, cy)` is one of the cells `neighbors` counts for `(x, y)`
according to the specification: some offset leads from `(x, y)` to it. -/
def countedFor (x y cx cy : Int) : Prop :=
  ∃ d ∈ specOffsets, ((x + d.1) % WIDTH, (y + d.2) % HEIGHT) = (cx, cy)

instance (x y cx cy : Int) : Decidable (countedFor x y cx cy) :=
  inferInstanceAs
    (Decidable (∃ d ∈ specOffsets, ((x + d.1) % WIDTH, (y + d.2) % HEIGHT) = (cx, cy)))

/-- The zero-initialised board of `main` (`memset(..., 0, BOARD_SIZE_BYTES)`). -/
def emptyBoard : cells := List.replicate BOARD_SIZE 0

/-! ## The event loop of `main`, restricted to the two buffers -/

/-- The events of `main` that reach the buffers: a mouse press or drag at a
pixel, and the space key. -/
inductive Event where
  | mouse (px py : Int)
  | space
  deriving DecidableEq, Repr

/-- The event, when it is a mouse event, lies inside the rendered surface. -/
def Event.onSurface : Event → Prop
  | .mouse px py => inSurface px py
  | .space => True

instance : (e : Event) → Decidable e.onSurface
  | .mouse px py => inferInstanceAs (Decidable (inSurface px py))
  | .space => inferInstanceAs (Decidable True)

/-- The two buffers owned by `main`. -/
structure World where
  current_generation : cells
  next_generation : cells
  deriving DecidableEq, Repr

/-- One iteration of the `switch` in `main`. -/
def handle (w : World) : Event → Except Fault World
  | .mouse px py => do
    let c ← draw w.current_generation px py
    pure { w with current_generation := c }
  | .space => do
    let p ← tick w.current_generation w.next_generation
    pure { current_generation := p.1, next_generation := p.2 }

/-- The buffers after a sequence of events. -/
def run (w : World) (events : List Event) : Except Fault World :=
  events.foldlM handle w

/-- The buffers `main` starts from. -/
def initialWorld : World :=
  { current_generation := emptyBoard, next_generation := emptyBoard }

/-! ## Checked arithmetic and `mod` -/

theorem BOARD_SIZE_eq : BOARD_SIZE = 900 := by decide

theorem chk_ok {v : Int} (h1 : INT_MIN ≤ v) (h2 : v ≤ INT_MAX) : chk v = .ok v := by
  simp [chk, h1, h2]

theorem tmod_cases (a b : Int) (hb : 0 < b) :
    (0 ≤ Int.tmod a b ∧ Int.tmod a b = a % b) ∨
    (Int.tmod a b < 0 ∧ Int.tmod a b + b = a % b) := by
  have h1 : Int.tmod a b = a - b * Int.tdiv a b := Int.tmod_def a b
  have h2 : a % b = (Int.tmod a b) % b := by
    rw [h1]; simp [Int.sub_emod]
  have h3 : Int.tmod a b < b := Int.tmod_lt_of_pos a hb
  have h4 : -b < Int.tmod a b := by
    rcases Int.le_total 0 a with ha | ha
    · have := Int.tmod_nonneg b ha; omega
    · have h5 : Int.tmod (-a) b < b := Int.tmod_lt_of_pos (-a) hb
      have h6 : Int.tmod (-a) b = -Int.tmod a b := by
        rw [Int.tmod_def, Int.tmod_def, Int.neg_tdiv]
        have := Int.mul_neg b (a.tdiv b)
        omega
      omega
  rcases Int.lt_or_le (Int.tmod a b) 0 with h | h
  · right
    refine ⟨h, ?_⟩
    rw [h2, ← Int.add_emod_self, Int.emod_eq_of_lt (by omega) (by omega)]
  · left
    exact ⟨h, by rw [h2, Int.emod_eq_of_lt h h3]⟩

theorem mod_ok (a b : Int) (hb : 0 < b) (hb2 : b ≤ INT_MAX) :
    mod a b = .ok (a % b) := by
  have hne : b ≠ 0 := by omega
  have hne1 : ¬ (a = INT_MIN ∧ b = -1) := by omega
  have hlo : 0 ≤ a % b := Int.emod_nonneg a hne
  have hhi : a % b < b := Int.emod_lt_of_pos a hb
  rcases tmod_cases a b hb with ⟨h1, h2⟩ | ⟨h1, h2⟩
  · simp only [mod, hne, hne1, h2, if_false, false_and]
    rw [if_neg (by omega)]
  · have e : chk (Int.tmod a b + b) = .ok (a % b) := by
      rw [h2]; apply chk_ok <;> simp only [INT_MIN, INT_MAX] at * <;> omega
    simp [mod, hne, hne1, h1, e]

theorem flatIndex_ok (x y : Int) (hx : 0 ≤ x ∧ x < 30) (hy : 0 ≤ y ∧ y < 30) :
    flatIndex x y = .ok (y * WIDTH + x) := by
  have e1 : chk (y * WIDTH) = .ok (y * WIDTH) := by
    apply chk_ok <;> simp only [INT_MIN, INT_MAX, WIDTH] <;> omega
  have e2 : chk (y * WIDTH + x) = .ok (y * WIDTH + x) := by
    apply chk_ok <;> simp only [INT_MIN, INT_MAX, WIDTH] <;> omega
  simp [flatIndex, e1, e2, bind, Except.bind]

theorem readCell_ok (g : cells) (i : Int) (h0 : 0 ≤ i) (h1 : i < g.length) :
    readCell g i = .ok (g.getD i.toNat 0) := by
  simp [readCell, h0, h1]

theorem writeCell_ok (g : cells) (i : Int) (v : Nat) (h0 : 0 ≤ i) (h1 : i < g.length) :
    writeCell g i v = .ok (g.set i.toNat v) := by
  simp [writeCell, h0, h1]

/-! ## `neighbors` -/

theorem probe_ok (g : cells) (hg : g.length = 900) (x y dx dy : Int)
    (hx : 0 ≤ x ∧ x < 30) (hy : 0 ≤ y ∧ y < 30)
    (hdx : -1 ≤ dx ∧ dx ≤ 1) (hdy : -1 ≤ dy ∧ dy ≤ 1) (c : Nat) :
    probe g x y dx dy c =
      .ok (c + if alive g ((x + dx) % WIDTH) ((y + dy) % HEIGHT) then 1 else 0) := by
  have e1 : chk (x + dx) = .ok (x + dx) := by
    apply chk_ok <;> simp only [INT_MIN, INT_MAX] <;> omega
  have e2 : chk (y + dy) = .ok (y + dy) := by
    apply chk_ok <;> simp only [INT_MIN, INT_MAX] <;> omega
  have m1 : mod (x + dx) WIDTH = .ok ((x + dx) % WIDTH) :=
    mod_ok _ _ (by decide) (by decide)
  have m2 : mod (y + dy) HEIGHT = .ok ((y + dy) % HEIGHT) :=
    mod_ok _ _ (by decide) (by decide)
  have bx : 0 ≤ (x + dx) % 30 ∧ (x + dx) % 30 < 30 := by omega
  have by1 : 0 ≤ (y + dy) % 30 ∧ (y + dy) % 30 < 30 := by omega
  have e3 : chk ((y + dy) % HEIGHT * WIDTH) = .ok ((y + dy) % HEIGHT * WIDTH) := by
    apply chk_ok <;> simp only [INT_MIN, INT_MAX, WIDTH, HEIGHT] <;> omega
  have e4 : chk ((x + dx) % WIDTH + (y + dy) % HEIGHT * WIDTH)
      = .ok ((y + dy) % HEIGHT * WIDTH + (x + dx) % WIDTH) := by
    rw [Int.add_comm]
    apply chk_ok <;> simp only [INT_MIN, INT_MAX, WIDTH, HEIGHT] <;> omega
  have e5 : readCell g ((y + dy) % HEIGHT * WIDTH + (x + dx) % WIDTH)
      = .ok (cellAt g ((x + dx) % WIDTH) ((y + dy) % HEIGHT)) := by
    rw [readCell_ok]
    · rfl
    · simp only [WIDTH, HEIGHT]; omega
    · rw [hg]; simp only [WIDTH, HEIGHT]; omega
  simp only [probe, e1, e2, m1, m2, e3, e4, e5, bind, Except.bind, pure, Except.pure, alive]
  split <;> rfl

theorem specOffsets_eq :
    specOffsets = [(-1, -1), (-1, 0), (-1, 1), (0, -1), (0, 1), (1, -1), (1, 0), (1, 1)] := by
  decide

theorem specNeighbors_le (g : cells) (x y : Int) : specNeighbors g x y ≤ 8 := by
  unfold specNeighbors
  refine le_trans (List.countP_le_length _) ?_
  rw [specOffsets_eq]; simp

theorem neighbors_ok (g : cells) (hg : g.length = 900) (x y : Int)
    (hx : 0 ≤ x ∧ x < 30) (hy : 0 ≤ y ∧ y < 30) :
    neighbors g x y = .ok (specNeighbors g x y) := by
  have p := fun dx dy hdx hdy c => probe_ok g hg x y dx dy hx hy hdx hdy c
  simp only [neighbors, bind, Except.bind, pure, Except.pure,
    p 1 0 (by decide) (by decide), p 1 1 (by decide) (by decide),
    p 0 1 (by decide) (by decide), p (-1) 1 (by decide) (by decide),
    p (-1) 0 (by decide) (by decide), p (-1) (-1) (by decide) (by decide),
    p 0 (-1) (by decide) (by decide), p 1 (-1) (by decide) (by decide)]
  simp only [specNeighbors, specOffsets_eq, List.countP_cons, List.countP_nil]
  congr 1
  simp only [decide_eq_true_eq]
  generalize (if alive g ((x + 1) % WIDTH) ((y + 0) % HEIGHT) then 1 else 0) = a1
  generalize (if alive g ((x + 1) % WIDTH) ((y + 1) % HEIGHT) then 1 else 0) = a2
  generalize (if alive g ((x + 0) % WIDTH) ((y + 1) % HEIGHT) then 1 else 0) = a3
  generalize (if alive g ((x + -1) % WIDTH) ((y + 1) % HEIGHT) then 1 else 0) = a4
  generalize (if alive g ((x + -1) % WIDTH) ((y + 0) % HEIGHT) then 1 else 0) = a5
  generalize (if alive g ((x + -1) % WIDTH) ((y + -1) % HEIGHT) then 1 else 0) = a6
  generalize (if alive g ((x + 0) % WIDTH) ((y + -1) % HEIGHT) then 1 else 0) = a7
  generalize (if alive g ((x + 1) % WIDTH) ((y + -1) % HEIGHT) then 1 else 0) = a8
  omega

/-! ## `tick` -/

theorem toInt32_small (n : Nat) (h : n ≤ 8) : toInt32 n = n := by
  unfold toInt32; omega

/-- Loop rule: an invariant indexed by the iteration count. -/
theorem forLoop_inv {σ : Type} (P : Nat → σ → Prop) (n : Nat)
    (body : Int → σ → Except Fault σ) (s : σ) (h0 : P 0 s)
    (hstep : ∀ i t, i < n → P i t → ∃ t', body (i : Int) t = .ok t' ∧ P (i + 1) t') :
    ∃ s', forLoop n body s = .ok s' ∧ P n s' := by
  induction n with
  | zero => exact ⟨s, by simp [forLoop, pure, Except.pure], h0⟩
  | succ n ih =>
    obtain ⟨t, ht, hP⟩ := ih (fun i t hi => hstep i t (Nat.lt_succ_of_lt hi))
    obtain ⟨t', ht', hP'⟩ := hstep n t (Nat.lt_succ_self n) hP
    refine ⟨t', ?_, hP'⟩
    unfold forLoop at ht ⊢
    rw [List.range_succ, List.foldlM_append, ht]
    simp [bind, Except.bind, ht', pure, Except.pure]

theorem bind_ok_eq {α β : Type} {a : Except Fault α} {v : α} (h : a = .ok v)
    (f : α → Except Fault β) : (a >>= f) = f v := by
  subst h; rfl

theorem ok_bind {α β : Type} (v : α) (f : α → Except Fault β) :
    ((Except.ok v : Except Fault α) >>= f) = f v := rfl

theorem getD_set (s : cells) (k j v : Nat) (hk : k < s.length) :
    (s.set k v).getD j 0 = if j = k then v else s.getD j 0 := by
  simp only [List.getD_eq_getElem?_getD, List.getElem?_set, hk, if_true]
  by_cases h : k = j
  · subst h; simp
  · have h' : ¬ j = k := fun e => h e.symm
    simp [h, h']

theorem tickInv_set (g s : cells) (k v : Nat) (hk : k < 900) (hs : TickInv g k s)
    (hv : v = nextCell g ((k : Int) % WIDTH) ((k : Int) / WIDTH)) :
    TickInv g (k + 1) (s.set k v) := by
  obtain ⟨hlen, hval⟩ := hs
  refine ⟨by simp [hlen], fun j hj => ?_⟩
  rw [getD_set s k j v (by omega), hval j hj]
  by_cases h : j = k
  · subst h; simp [hv]
  · have h1 : j < k + 1 ↔ j < k := by omega
    simp [h, h1]

theorem tickInv_keep (g s : cells) (k : Nat) (hk : k < 900) (hs : TickInv g k s)
    (hv : g.getD k 0 = nextCell g ((k : Int) % WIDTH) ((k : Int) / WIDTH)) :
    TickInv g (k + 1) s := by
  obtain ⟨hlen, hval⟩ := hs
  refine ⟨hlen, fun j hj => ?_⟩
  rw [hval j hj]
  by_cases h : j = k
  · subst h; rw [if_neg (by omega), if_pos (by omega)]; exact hv
  · have h1 : j < k + 1 ↔ j < k := by omega
    simp [h1]

theorem tickCell_inv (g : cells) (hg : g.length = 900) (x y : Nat)
    (hx : x < 30) (hy : y < 30) (s : cells) (hs : TickInv g (y * 30 + x) s) :
    ∃ s', tickCell g (x : Int) (y : Int) s = .ok s' ∧ TickInv g (y * 30 + x + 1) s' := by
  have hlen := hs.1
  have hx' : (0 : Int) ≤ x ∧ (x : Int) < 30 := by omega
  have hy' : (0 : Int) ≤ y ∧ (y : Int) < 30 := by omega
  have hi : ((y : Int) * WIDTH + x).toNat = y * 30 + x := by
    simp only [WIDTH]; omega
  have hcx : (((y * 30 + x : Nat) : Int)) % WIDTH = x := by
    simp only [WIDTH]; omega
  have hcy : (((y * 30 + x : Nat) : Int)) / WIDTH = y := by
    simp only [WIDTH]; omega
  have hc : cellAt g x y = g.getD (y * 30 + x) 0 := by
    unfold cellAt; rw [hi]
  have hr : readCell g ((y : Int) * WIDTH + x) = .ok (cellAt g x y) := by
    rw [readCell_ok]
    · rfl
    · simp only [WIDTH]; omega
    · rw [hg]; simp only [WIDTH]; omega
  have hw : ∀ v, writeCell s ((y : Int) * WIDTH + x) v = .ok (s.set (y * 30 + x) v) := by
    intro v
    rw [writeCell_ok, hi]
    · simp only [WIDTH]; omega
    · rw [hlen]; simp only [WIDTH]; omega
  have hset : ∀ v, v = nextCell g x y →
      TickInv g (y * 30 + x + 1) (s.set (y * 30 + x) v) := by
    intro v hv
    exact tickInv_set g s _ v (by omega) hs (by rw [hcx, hcy]; exact hv)
  have hkeep : cellAt g x y = nextCell g x y → TickInv g (y * 30 + x + 1) s := by
    intro hv
    exact tickInv_keep g s _ (by omega) hs (by rw [hcx, hcy, ← hc]; exact hv)
  have hn := specNeighbors_le g x y
  unfold tickCell
  rw [bind_ok_eq (flatIndex_ok _ _ hx' hy'), bind_ok_eq hr,
    bind_ok_eq (neighbors_ok g hg _ _ hx' hy')]
  simp only [toInt32_small _ hn]
  by_cases c1 : cellAt g x y ≠ 0 ∧
      ¬(((specNeighbors g x y : Nat) : Int) = 2 ∨ ((specNeighbors g x y : Nat) : Int) = 3)
  · rw [if_pos c1, bind_ok_eq (hw OFF), if_neg (by tauto)]
    refine ⟨_, rfl, hset _ ?_⟩
    unfold nextCell alive
    rw [if_pos]
    refine ⟨c1.1, ?_⟩
    have := c1.2
    omega
  · rw [if_neg c1]
    by_cases c2 : cellAt g x y = 0 ∧ ((specNeighbors g x y : Nat) : Int) = 3
    · rw [bind_ok_eq (rfl : (pure s : Except Fault cells) = .ok s), if_pos c2, hw ON]
      refine ⟨_, rfl, hset _ ?_⟩
      unfold nextCell alive
      rw [if_neg (by intro h; exact h.1 c2.1), if_pos]
      refine ⟨by simp [c2.1], ?_⟩
      have := c2.2
      omega
    · rw [bind_ok_eq (rfl : (pure s : Except Fault cells) = .ok s), if_neg c2]
      refine ⟨_, rfl, hkeep ?_⟩
      unfold nextCell alive
      rw [if_neg, if_neg]
      · intro h; apply c2; refine ⟨by simpa using h.1, ?_⟩
        have := h.2; omega
      · intro h; apply c1; refine ⟨h.1, ?_⟩
        have := h.2; omega

theorem tabulate_length (f : Int → Int → Nat) : (tabulate f).length = 900 := by
  simp [tabulate, BOARD_SIZE_eq]

theorem tabulate_getD (f : Int → Int → Nat) (j : Nat) (hj : j < 900) :
    (tabulate f).getD j 0 = f ((j : Int) % WIDTH) ((j : Int) / WIDTH) := by
  simp [tabulate, BOARD_SIZE_eq, List.getD_eq_getElem?_getD, List.getElem?_map,
    List.getElem?_range hj]

theorem cellAt_tabulate (f : Int → Int → Nat) (x y : Int)
    (hx : 0 ≤ x ∧ x < 30) (hy : 0 ≤ y ∧ y < 30) :
    cellAt (tabulate f) x y = f x y := by
  unfold cellAt
  have h1 : (y * WIDTH + x).toNat < 900 := by simp only [WIDTH]; omega
  have h2 : (((y * WIDTH + x).toNat : Nat) : Int) % WIDTH = x := by
    simp only [WIDTH]; omega
  have h3 : (((y * WIDTH + x).toNat : Nat) : Int) / WIDTH = y := by
    simp only [WIDTH]; omega
  rw [tabulate_getD f _ h1, h2, h3]

theorem step_length (g : cells) : (step g).length = 900 :=
  tabulate_length _

theorem step_getD (g : cells) (j : Nat) (hj : j < 900) :
    (step g).getD j 0 = nextCell g ((j : Int) % WIDTH) ((j : Int) / WIDTH) :=
  tabulate_getD _ j hj

theorem cellAt_step (g : cells) (x y : Int) (hx : 0 ≤ x ∧ x < 30) (hy : 0 ≤ y ∧ y < 30) :
    cellAt (step g) x y = nextCell g x y :=
  cellAt_tabulate _ x y hx hy

/-- The rule in terms of liveness: a cell is alive in the next generation
exactly when it has three live neighbours, or is alive with two. -/
theorem nextCell_alive (g : cells) (x y : Int) :
    nextCell g x y ≠ 0 ↔
      specNeighbors g x y = 3 ∨ (alive g x y ∧ specNeighbors g x y = 2) := by
  unfold nextCell
  by_cases ha : alive g x y
  · by_cases h2 : specNeighbors g x y = 2
    · simp [ha, h2]; exact ha
    · by_cases h3 : specNeighbors g x y = 3
      · simp [ha, h3]; exact ha
      · simp [ha, h2, h3, OFF]
  · by_cases h3 : specNeighbors g x y = 3
    · simp [ha, h3, ON]
    · simp [ha, h3]; exact not_not.mp ha

theorem cells_ext (s t : cells) (hs : s.length = 900) (ht : t.length = 900)
    (h : ∀ j : Nat, j < 900 → s.getD j 0 = t.getD j 0) : s = t := by
  apply List.ext_getElem (by rw [hs, ht])
  intro j h1 h2
  have := h j (by omega)
  simpa [List.getD_eq_getElem?_getD, List.getElem?_eq_getElem h1,
    List.getElem?_eq_getElem h2] using this

theorem tickInv_done (g s : cells) (hs : TickInv g 900 s) : s = step g := by
  apply cells_ext s (step g) hs.1 (step_length g)
  intro j hj
  rw [hs.2 j hj, if_pos hj, step_getD g j hj]

theorem memcpyBoard_ok (dst src : cells) (hd : dst.length = 900) (hs : src.length = 900) :
    memcpyBoard dst src = .ok src := by
  have h1 : src.take 900 = src := List.take_of_length_le (by simp [hs])
  have h2 : dst.drop 900 = [] := List.drop_of_length_le (by simp [hd])
  simp [memcpyBoard, BOARD_SIZE_eq, hd, hs, h1, h2]

/-- With both buffers holding `BOARD_SIZE` cells, `tick` succeeds: the new
current generation is `step` of the old one and the new `next` buffer is the
old current generation. -/
theorem tick_eq (cur nxt : cells) (hc : cur.length = 900) (hn : nxt.length = 900) :
    tick cur nxt = .ok (step cur, cur) := by
  have h0 : TickInv cur (0 * 30) cur := by
    refine ⟨hc, fun j _ => ?_⟩
    simp
  have hrow : ∀ (y : Nat) (t : cells), y < 30 → TickInv cur (y * 30) t →
      ∃ t', forLoop WIDTH.toNat (fun x s => tickCell cur x (y : Int) s) t = .ok t' ∧
        TickInv cur ((y + 1) * 30) t' := by
    intro y t hy ht
    have := forLoop_inv (fun x s => TickInv cur (y * 30 + x) s) 30
      (fun x s => tickCell cur x (y : Int) s) t ht
      (fun x s hx hs => tickCell_inv cur hc x y hx hy s hs)
    have e : (y + 1) * 30 = y * 30 + 30 := by omega
    rw [e]
    exact this
  obtain ⟨s', hs', hP⟩ := forLoop_inv (fun y s => TickInv cur (y * 30) s) 30
    (fun y s => forLoop WIDTH.toNat (fun x s => tickCell cur x y s) s) cur h0
    (fun y s hy hs => hrow y s hy hs)
  have hfin : s' = step cur := tickInv_done cur s' hP
  unfold tick
  rw [bind_ok_eq (memcpyBoard_ok nxt cur hn hc)]
  have e30 : HEIGHT.toNat = 30 := rfl
  rw [e30, bind_ok_eq hs', hfin]
  rfl

/-! ## `draw` -/

theorem tdiv_scale_bounds (p : Int) (hp : INT_MIN ≤ p ∧ p ≤ INT_MAX) :
    -85899346 ≤ Int.tdiv p SCALE ∧ Int.tdiv p SCALE ≤ 85899346 := by
  have h1 := Int.tdiv_add_tmod p SCALE
  have h2 := tmod_cases p SCALE (by decide)
  have h3 := Int.emod_nonneg p (show SCALE ≠ 0 by decide)
  have h4 := Int.emod_lt_of_pos p (show 0 < SCALE by decide)
  simp only [INT_MIN, INT_MAX, SCALE] at *
  omega

/-- Whenever the flat index of the computed cell lies inside the buffer,
`draw` succeeds and toggles the cell stored at that index. -/
theorem draw_eq (g : cells) (px py : Int) (i : Nat)
    (hi : Int.tdiv py SCALE * WIDTH + Int.tdiv px SCALE = i) (hlt : i < g.length)
    (hpx : INT_MIN ≤ px ∧ px ≤ INT_MAX) (hg : g.length ≤ 900) :
    draw g px py = .ok (g.set i (toggled (g.getD i 0))) := by
  have hx := tdiv_scale_bounds px hpx
  have e1 : chk (Int.tdiv py SCALE * WIDTH) = .ok (Int.tdiv py SCALE * WIDTH) := by
    apply chk_ok <;> simp only [INT_MIN, INT_MAX, WIDTH] at * <;> omega
  have e2 : chk (Int.tdiv py SCALE * WIDTH + Int.tdiv px SCALE) = .ok (i : Int) := by
    rw [hi]
    apply chk_ok <;> simp only [INT_MIN, INT_MAX] <;> omega
  have hf : flatIndex (Int.tdiv px SCALE) (Int.tdiv py SCALE) = .ok (i : Int) := by
    unfold flatIndex
    rw [bind_ok_eq e1, e2]
  have hr : readCell g (i : Int) = .ok (g.getD i 0) := by
    rw [readCell_ok g i (by omega) (by omega)]; simp
  have hw : ∀ v, writeCell g (i : Int) v = .ok (g.set i v) := by
    intro v
    rw [writeCell_ok g i v (by omega) (by omega)]; simp
  unfold draw get_cell set_cell
  simp only []
  rw [hf]
  simp only [ok_bind, hr, hw, toggled]

theorem error_bind {α β : Type} (e : Fault) (f : α → Except Fault β) :
    ((Except.error e : Except Fault α) >>= f) = .error e := rfl

/-- When the flat index of the computed cell is outside the buffer, `draw`
faults. -/
theorem draw_fault (g : cells) (px py : Int) (hg : g.length = 900)
    (hi : ¬(0 ≤ Int.tdiv py SCALE * WIDTH + Int.tdiv px SCALE ∧
      Int.tdiv py SCALE * WIDTH + Int.tdiv px SCALE < 900)) :
    draw g px py = .error .overflow ∨ draw g px py = .error .outOfRange := by
  unfold draw get_cell
  simp only []
  unfold flatIndex
  by_cases h1 : INT_MIN ≤ Int.tdiv py SCALE * WIDTH ∧ Int.tdiv py SCALE * WIDTH ≤ INT_MAX
  · rw [bind_ok_eq (chk_ok h1.1 h1.2)]
    by_cases h2 : INT_MIN ≤ Int.tdiv py SCALE * WIDTH + Int.tdiv px SCALE ∧
        Int.tdiv py SCALE * WIDTH + Int.tdiv px SCALE ≤ INT_MAX
    · rw [chk_ok h2.1 h2.2, ok_bind]
      right
      have : readCell g (Int.tdiv py SCALE * WIDTH + Int.tdiv px SCALE)
          = .error .outOfRange := by
        unfold readCell
        rw [if_neg]
        rw [hg]; exact hi
      rw [this, error_bind]
    · left
      have : chk (Int.tdiv py SCALE * WIDTH + Int.tdiv px SCALE) = .error .overflow := by
        unfold chk; rw [if_neg h2]
      rw [this, error_bind, error_bind]
  · left
    have : chk (Int.tdiv py SCALE * WIDTH) = .error .overflow := by
      unfold chk; rw [if_neg h1]
    rw [this, error_bind, error_bind, error_bind]

/-- Inside the rendered surface the computed cell is a grid cell. -/
theorem inSurface_cell (px py : Int) (h : inSurface px py) :
    0 ≤ Int.tdiv px SCALE ∧ Int.tdiv px SCALE < 30 ∧
    0 ≤ Int.tdiv py SCALE ∧ Int.tdiv py SCALE < 30 ∧
    Int.tdiv px SCALE = px / SCALE ∧ Int.tdiv py SCALE = py / SCALE := by
  obtain ⟨h1, h2, h3, h4⟩ := h
  have e1 : Int.tdiv px SCALE = px / SCALE := Int.tdiv_eq_ediv h1 (by decide)
  have e2 : Int.tdiv py SCALE = py / SCALE := Int.tdiv_eq_ediv h3 (by decide)
  rw [e1, e2]
  simp only [SCALE, WIDTH, HEIGHT] at h2 h4 ⊢
  refine ⟨by omega, by omega, by omega, by omega, trivial, trivial⟩

theorem emptyBoard_length : emptyBoard.length = 900 := by
  unfold emptyBoard
  rw [BOARD_SIZE_eq]
  exact List.length_replicate 900 0

/-! ## Patterns given by their live cells -/

theorem alive_gridOf (live : List (Int × Int)) (x y : Int)
    (hx : 0 ≤ x ∧ x < 30) (hy : 0 ≤ y ∧ y < 30) :
    alive (gridOf live) x y ↔ (x, y) ∈ live := by
  unfold alive gridOf
  rw [cellAt_tabulate _ x y hx hy]
  by_cases h : (x, y) ∈ live <;> simp [h, ON, OFF]

theorem specNeighbors_gridOf (live : List (Int × Int)) (x y : Int) :
    specNeighbors (gridOf live) x y = specOffsets.countP
      (fun d => decide (((x + d.1) % WIDTH, (y + d.2) % HEIGHT) ∈ live)) := by
  unfold specNeighbors
  apply List.countP_congr
  intro d _
  have h1 : 0 ≤ (x + d.1) % WIDTH ∧ (x + d.1) % WIDTH < 30 :=
    ⟨Int.emod_nonneg _ (by decide), Int.emod_lt_of_pos _ (by decide)⟩
  have h2 : 0 ≤ (y + d.2) % HEIGHT ∧ (y + d.2) % HEIGHT < 30 :=
    ⟨Int.emod_nonneg _ (by decide), Int.emod_lt_of_pos _ (by decide)⟩
  simp only [decide_eq_true_eq]
  exact alive_gridOf live _ _ h1 h2

theorem nextCell_gridOf (live : List (Int × Int)) (x y : Int)
    (hx : 0 ≤ x ∧ x < 30) (hy : 0 ≤ y ∧ y < 30) :
    nextCell (gridOf live) x y = if lifeRule live x y = true then ON else OFF := by
  have ha := alive_gridOf live x y hx hy
  have hn := specNeighbors_gridOf live x y
  have hc : cellAt (gridOf live) x y = if (x, y) ∈ live then ON else OFF := by
    unfold gridOf; rw [cellAt_tabulate _ x y hx hy]
  unfold nextCell lifeRule
  simp only [ha, hn, hc, decide_eq_true_eq]
  by_cases hm : (x, y) ∈ live
  · by_cases h2 : specOffsets.countP
        (fun d => decide (((x + d.1) % WIDTH, (y + d.2) % HEIGHT) ∈ live)) = 2
    · simp [hm, h2]
    · by_cases h3 : specOffsets.countP
          (fun d => decide (((x + d.1) % WIDTH, (y + d.2) % HEIGHT) ∈ live)) = 3
      · simp [hm, h3]
      · simp [hm, h2, h3]
  · by_cases h3 : specOffsets.countP
        (fun d => decide (((x + d.1) % WIDTH, (y + d.2) % HEIGHT) ∈ live)) = 3
    · simp [hm, h3]
    · simp [hm, h3]

theorem step_gridOf (live live' : List (Int × Int))
    (h : ∀ i : Nat, i < 30 → ∀ j : Nat, j < 30 →
      lifeRule live (i : Int) (j : Int) = decide (((i : Int), (j : Int)) ∈ live')) :
    step (gridOf live) = gridOf live' := by
  apply cells_ext _ _ (step_length _) (tabulate_length _)
  intro k hk
  have hx : 0 ≤ (k : Int) % WIDTH ∧ (k : Int) % WIDTH < 30 := by
    simp only [WIDTH]; omega
  have hy : 0 ≤ (k : Int) / WIDTH ∧ (k : Int) / WIDTH < 30 := by
    simp only [WIDTH]; omega
  have e1 : (k : Int) % WIDTH = ((k % 30 : Nat) : Int) := by simp only [WIDTH]; omega
  have e2 : (k : Int) / WIDTH = ((k / 30 : Nat) : Int) := by simp only [WIDTH]; omega
  rw [step_getD _ k hk, nextCell_gridOf live _ _ hx hy]
  show _ = (tabulate _).getD k 0
  rw [tabulate_getD _ k hk, e1, e2, h (k % 30) (by omega) (k / 30) (by omega)]
  simp only [decide_eq_true_eq]

set_option maxRecDepth 100000 in
theorem glider_rule :
    ∀ i : Nat, i < 30 → ∀ j : Nat, j < 30 →
      lifeRule [(1, 0), (2, 1), (0, 2), (1, 2), (2, 2)] (i : Int) (j : Int)
        = decide (((i : Int), (j : Int)) ∈
            ([(0, 1), (2, 1), (1, 2), (2, 2), (1, 3)] : List (Int × Int))) := by
  decide!

theorem cellAt_gridOf (live : List (Int × Int)) (x y : Int)
    (hx : 0 ≤ x ∧ x < 30) (hy : 0 ≤ y ∧ y < 30) :
    cellAt (gridOf live) x y = if (x, y) ∈ live then ON else OFF :=
  cellAt_tabulate _ x y hx hy

theorem gridOf_binary (live : List (Int × Int)) : Binary (gridOf live) := by
  intro v hv
  unfold gridOf tabulate at hv
  rw [List.mem_map] at hv
  obtain ⟨i, -, rfl⟩ := hv
  by_cases h : ((i : Int) % WIDTH, (i : Int) / WIDTH) ∈ live
  · right; simp only [h, if_true]
  · left; simp only [h, if_false]

theorem gridOf_length (live : List (Int × Int)) : (gridOf live).length = 900 :=
  tabulate_length _

theorem glider0_length : glider0.length = 900 :=
  gridOf_length _

theorem seamBoard_length : seamBoard.length = 900 :=
  gridOf_length _

theorem seamBoard_alive (x y : Int) (hx : 0 ≤ x ∧ x < 30) (hy : 0 ≤ y ∧ y < 30)
    (h : (x, y) ∈ ([(29, 0), (0, 29), (29, 29)] : List (Int × Int))) :
    alive seamBoard x y :=
  (alive_gridOf _ x y hx hy).mpr h

theorem seamBoard_neighbors : neighbors seamBoard 0 0 = .ok 3 := by
  rw [neighbors_ok seamBoard seamBoard_length 0 0 (by decide) (by decide)]
  have h : specNeighbors seamBoard 0 0 = 3 := by
    unfold seamBoard
    rw [specNeighbors_gridOf]
    decide
  rw [h]

theorem step_glider0 :
    step glider0 = gridOf [(0, 1), (2, 1), (1, 2), (2, 2), (1, 3)] :=
  step_gridOf [(1, 0), (2, 1), (0, 2), (1, 2), (2, 2)]
    [(0, 1), (2, 1), (1, 2), (2, 2), (1, 3)] glider_rule

theorem binary_getD (g : cells) (hb : Binary g) (i : Nat) :
    g.getD i 0 = OFF ∨ g.getD i 0 = ON := by
  rw [List.getD_eq_getElem?_getD]
  by_cases h : i < g.length
  · rw [List.getElem?_eq_getElem h]
    exact hb _ (List.getElem_mem h)
  · rw [List.getElem?_eq_none (by omega)]
    left; rfl

theorem binary_set (g : cells) (hb : Binary g) (i v : Nat) (hv : v = OFF ∨ v = ON) :
    Binary (g.set i v) := by
  intro w hw
  rcases List.mem_or_eq_of_mem_set hw with h | h
  · exact hb w h
  · rw [h]; exact hv

theorem toggled_binary (v : Nat) : toggled v = OFF ∨ toggled v = ON := by
  unfold toggled; split
  · left; rfl
  · right; rfl

theorem toggled_eq (v : Nat) : toggled v = if v = 0 then ON else OFF := by
  unfold toggled
  by_cases h : v = 0
  · rw [if_neg (not_not.mpr h), if_pos h]
  · rw [if_pos h, if_neg h]

theorem emptyBoard_getD (j : Nat) : emptyBoard.getD j 0 = 0 := by
  unfold emptyBoard
  rw [BOARD_SIZE_eq, List.getD_eq_getElem?_getD, List.getElem?_replicate]
  split <;> rfl

theorem toggled_toggled (v : Nat) (hv : v = OFF ∨ v = ON) : toggled (toggled v) = v := by
  rcases hv with h | h <;> subst h <;> decide

theorem emptyBoard_binary : Binary emptyBoard := by
  intro v hv
  left
  exact List.eq_of_mem_replicate hv

theorem step_binary (g : cells) (hb : Binary g) : Binary (step g) := by
  intro v hv
  unfold step tabulate at hv
  rw [List.mem_map] at hv
  obtain ⟨i, -, rfl⟩ := hv
  unfold nextCell
  split
  · left; rfl
  · split
    · right; rfl
    · exact binary_getD g hb _

/-! ## The event loop -/

theorem handle_inv (w : World) (e : Event)
    (hc : w.current_generation.length = 900) (hn : w.next_generation.length = 900)
    (hb : Binary w.current_generation) (he : e.onSurface) :
    ∃ w', handle w e = .ok w' ∧ w'.current_generation.length = 900 ∧
      w'.next_generation.length = 900 ∧ Binary w'.current_generation := by
  cases e with
  | mouse px py =>
    obtain ⟨hx0, hx1, hy0, hy1, -, -⟩ := inSurface_cell px py he
    have hp : INT_MIN ≤ px ∧ px ≤ INT_MAX := by
      obtain ⟨a, b, -, -⟩ := he
      simp only [INT_MIN, INT_MAX, WIDTH, SCALE] at *
      omega
    have hi : Int.tdiv py SCALE * WIDTH + Int.tdiv px SCALE
        = ((Int.tdiv py SCALE * WIDTH + Int.tdiv px SCALE).toNat : Nat) := by
      simp only [WIDTH]; omega
    have hlt : (Int.tdiv py SCALE * WIDTH + Int.tdiv px SCALE).toNat
        < w.current_generation.length := by
      rw [hc]; simp only [WIDTH]; omega
    refine ⟨⟨w.current_generation.set
        (Int.tdiv py SCALE * WIDTH + Int.tdiv px SCALE).toNat
        (toggled (w.current_generation.getD
          (Int.tdiv py SCALE * WIDTH + Int.tdiv px SCALE).toNat 0)),
        w.next_generation⟩, ?_, ?_, ?_, ?_⟩
    · simp only [handle]
      rw [draw_eq _ px py _ hi hlt hp (by omega), ok_bind]
      rfl
    · show (List.set _ _ _).length = 900
      rw [List.length_set]; exact hc
    · exact hn
    · exact binary_set _ hb _ _ (toggled_binary _)
  | space =>
    refine ⟨⟨step w.current_generation, w.current_generation⟩, ?_, ?_, ?_, ?_⟩
    · simp only [handle]
      rw [tick_eq _ _ hc hn, ok_bind]
      simp only [pure, Except.pure]
    · simp only []
      exact step_length _
    · exact hc
    · simp only []
      exact step_binary _ hb

theorem run_inv (events : List Event) :
    ∀ w : World, w.current_generation.length = 900 → w.next_generation.length = 900 →
      Binary w.current_generation → (∀ e ∈ events, e.onSurface) →
      ∃ w', run w events = .ok w' ∧ w'.current_generation.length = 900 ∧
        w'.next_generation.length = 900 ∧ Binary w'.current_generation := by
  induction events with
  | nil =>
    intro w hc hn hb _
    exact ⟨w, rfl, hc, hn, hb⟩
  | cons e es ih =>
    intro w hc hn hb hev
    obtain ⟨w1, h1, hc1, hn1, hb1⟩ :=
      handle_inv w e hc hn hb (hev e (List.mem_cons_self e es))
    obtain ⟨w2, h2, hr⟩ := ih w1 hc1 hn1 hb1 (fun e' he' => hev e' (List.mem_cons_of_mem e he'))
    refine ⟨w2, ?_, hr⟩
    unfold run at h2 ⊢
    rw [List.foldlM_cons, h1, ok_bind, h2]

/-! ## Toroidal translation -/

theorem cellAt_shift (g : cells) (dx dy x y : Int)
    (hx : 0 ≤ x ∧ x < 30) (hy : 0 ≤ y ∧ y < 30) :
    cellAt (shift dx dy g) x y = cellAt g ((x - dx) % WIDTH) ((y - dy) % HEIGHT) :=
  cellAt_tabulate _ x y hx hy

theorem specNeighbors_shift (g : cells) (dx dy x y : Int) :
    specNeighbors (shift dx dy g) x y
      = specNeighbors g ((x - dx) % WIDTH) ((y - dy) % HEIGHT) := by
  unfold specNeighbors
  apply List.countP_congr
  intro d _
  have h1 : 0 ≤ (x + d.1) % WIDTH ∧ (x + d.1) % WIDTH < 30 :=
    ⟨Int.emod_nonneg _ (by decide), Int.emod_lt_of_pos _ (by decide)⟩
  have h2 : 0 ≤ (y + d.2) % HEIGHT ∧ (y + d.2) % HEIGHT < 30 :=
    ⟨Int.emod_nonneg _ (by decide), Int.emod_lt_of_pos _ (by decide)⟩
  have e1 : ((x + d.1) % WIDTH - dx) % WIDTH = ((x - dx) % WIDTH + d.1) % WIDTH := by
    simp only [WIDTH]; omega
  have e2 : ((y + d.2) % HEIGHT - dy) % HEIGHT = ((y - dy) % HEIGHT + d.2) % HEIGHT := by
    simp only [HEIGHT]; omega
  simp only [decide_eq_true_eq]
  unfold alive
  rw [cellAt_shift g dx dy _ _ h1 h2, e1, e2]

theorem nextCell_shift (g : cells) (dx dy x y : Int)
    (hx : 0 ≤ x ∧ x < 30) (hy : 0 ≤ y ∧ y < 30) :
    nextCell (shift dx dy g) x y = nextCell g ((x - dx) % WIDTH) ((y - dy) % HEIGHT) := by
  have hc := cellAt_shift g dx dy x y hx hy
  have hs := specNeighbors_shift g dx dy x y
  unfold nextCell alive
  simp only [hc, hs]

theorem shift_length (g : cells) (dx dy : Int) : (shift dx dy g).length = 900 :=
  tabulate_length _

theorem step_shift (g : cells) (dx dy : Int) :
    step (shift dx dy g) = shift dx dy (step g) := by
  apply cells_ext _ _ (step_length _) (shift_length _ _ _)
  intro j hj
  have hx : 0 ≤ (j : Int) % WIDTH ∧ (j : Int) % WIDTH < 30 := by
    simp only [WIDTH]; omega
  have hy : 0 ≤ (j : Int) / WIDTH ∧ (j : Int) / WIDTH < 30 := by
    simp only [WIDTH]; omega
  have h1 : 0 ≤ ((j : Int) % WIDTH - dx) % WIDTH ∧ ((j : Int) % WIDTH - dx) % WIDTH < 30 :=
    ⟨Int.emod_nonneg _ (by decide), Int.emod_lt_of_pos _ (by decide)⟩
  have h2 : 0 ≤ ((j : Int) / WIDTH - dy) % HEIGHT ∧
      ((j : Int) / WIDTH - dy) % HEIGHT < 30 :=
    ⟨Int.emod_nonneg _ (by decide), Int.emod_lt_of_pos _ (by decide)⟩
  rw [step_getD _ j hj, nextCell_shift g dx dy _ _ hx hy]
  show _ = (tabulate _).getD j 0
  rw [tabulate_getD _ j hj, cellAt_step g _ _ h1 h2]

/-! ## The claims -/

/-- C8: for every 32-bit signed `a` and every positive 32-bit `b`, `mod a b`
returns without overflow a value `r` in `[0, b)` congruent to `a` modulo `b`,
namely the Euclidean remainder `a % b`; the intermediate truncating remainder
and, when it is negative, its sum with `b` are both representable, and in
that case the result differs from the truncating remainder by `b`. -/
theorem mod_euclidean (a b : Int) (_ha : INT_MIN ≤ a ∧ a ≤ INT_MAX)
    (hb : 0 < b ∧ b ≤ INT_MAX) :
    ∃ r, mod a b = .ok r ∧ 0 ≤ r ∧ r < b ∧ b ∣ a - r ∧ r = a % b ∧
      (INT_MIN ≤ Int.tmod a b ∧ Int.tmod a b ≤ INT_MAX) ∧
      (Int.tmod a b < 0 →
        r = Int.tmod a b + b ∧ INT_MIN ≤ Int.tmod a b + b ∧ Int.tmod a b + b ≤ INT_MAX) := by
  have hne : b ≠ 0 := by omega
  have hlo : 0 ≤ a % b := Int.emod_nonneg a hne
  have hhi : a % b < b := Int.emod_lt_of_pos a hb.1
  have ht := Int.tmod_lt_of_pos a hb.1
  refine ⟨a % b, mod_ok a b hb.1 hb.2, hlo, hhi, Int.dvd_sub_of_emod_eq rfl, rfl, ?_, ?_⟩
  · rcases tmod_cases a b hb.1 with ⟨h1, _⟩ | ⟨h1, h2⟩ <;>
      simp only [INT_MIN, INT_MAX] at * <;> omega
  · intro hneg
    rcases tmod_cases a b hb.1 with ⟨h1, _⟩ | ⟨h1, h2⟩
    · omega
    · simp only [INT_MIN, INT_MAX] at *
      omega

theorem mod_euclidean_witness :
    ∃ r, mod (-1) 30 = .ok r ∧ 0 ≤ r ∧ r < 30 ∧ (30 : Int) ∣ -1 - r ∧ r = -1 % 30 ∧
      (INT_MIN ≤ Int.tmod (-1) 30 ∧ Int.tmod (-1) 30 ≤ INT_MAX) ∧
      (Int.tmod (-1) 30 < 0 →
        r = Int.tmod (-1) 30 + 30 ∧ INT_MIN ≤ Int.tmod (-1) 30 + 30 ∧
          Int.tmod (-1) 30 + 30 ≤ INT_MAX) :=
  mod_euclidean (-1) 30 (by decide) (by decide)

/-- C2: for every grid of `BOARD_SIZE` cells and every in-range `(x, y)`,
`neighbors` returns a count `n` in `[0, 8]` equal to the number of offsets in
`{-1,0,1} x {-1,0,1}` other than `(0,0)` whose wrapped target cell is alive;
every live cell that is counted for `(x, y)` contributes at least one; and the
wrapped cells are counted: `(WIDTH-1, y)` for `(0, y)` and vice versa,
`(x, HEIGHT-1)` for `(x, 0)` and vice versa, and each corner for the
diagonally opposite corner. -/
theorem neighbors_counts_torus (g : cells) (hg : g.length = BOARD_SIZE) (x y : Int)
    (hx : 0 ≤ x ∧ x < WIDTH) (hy : 0 ≤ y ∧ y < HEIGHT) :
    (∃ n, neighbors g x y = .ok n ∧ n ≤ 8 ∧
      n = specOffsets.countP
        (fun d => alive g ((x + d.1) % WIDTH) ((y + d.2) % HEIGHT)) ∧
      ∀ cx cy, countedFor x y cx cy → alive g cx cy → 1 ≤ n) ∧
    countedFor 0 y (WIDTH - 1) y ∧ countedFor (WIDTH - 1) y 0 y ∧
    countedFor x 0 x (HEIGHT - 1) ∧ countedFor x (HEIGHT - 1) x 0 ∧
    countedFor 0 0 (WIDTH - 1) (HEIGHT - 1) ∧ countedFor (WIDTH - 1) (HEIGHT - 1) 0 0 ∧
    countedFor (WIDTH - 1) 0 0 (HEIGHT - 1) ∧ countedFor 0 (HEIGHT - 1) (WIDTH - 1) 0 := by
  rw [BOARD_SIZE_eq] at hg
  have hx' : 0 ≤ x ∧ x < 30 := hx
  have hy' : 0 ≤ y ∧ y < 30 := hy
  refine ⟨⟨specNeighbors g x y, neighbors_ok g hg x y hx hy, specNeighbors_le g x y, rfl,
    ?_⟩, ?_, ?_, ?_, ?_, ?_, ?_, ?_, ?_⟩
  · rintro cx cy ⟨d, hd, he⟩ hal
    have : 0 < specNeighbors g x y := by
      unfold specNeighbors
      rw [List.countP_pos_iff]
      refine ⟨d, hd, ?_⟩
      simp only [Prod.mk.injEq] at he
      simp only [decide_eq_true_eq, he.1, he.2]
      exact hal
    exact this
  · exact ⟨(-1, 0), by decide, by simp only [WIDTH, HEIGHT, Prod.mk.injEq]; omega⟩
  · exact ⟨(1, 0), by decide, by simp only [WIDTH, HEIGHT, Prod.mk.injEq]; omega⟩
  · exact ⟨(0, -1), by decide, by simp only [WIDTH, HEIGHT, Prod.mk.injEq]; omega⟩
  · exact ⟨(0, 1), by decide, by simp only [WIDTH, HEIGHT, Prod.mk.injEq]; omega⟩
  · exact ⟨(-1, -1), by decide, by decide⟩
  · exact ⟨(1, 1), by decide, by decide⟩
  · exact ⟨(1, -1), by decide, by decide⟩
  · exact ⟨(-1, 1), by decide, by decide⟩

theorem neighbors_counts_torus_witness :
    (alive seamBoard (WIDTH - 1) 0 ∧ alive seamBoard 0 (HEIGHT - 1) ∧
      alive seamBoard (WIDTH - 1) (HEIGHT - 1)) ∧
    neighbors seamBoard 0 0 = .ok 3 ∧
    (∃ n, neighbors seamBoard 0 0 = .ok n ∧ n ≤ 8 ∧
      n = specOffsets.countP
        (fun d => alive seamBoard ((0 + d.1) % WIDTH) ((0 + d.2) % HEIGHT)) ∧
      ∀ cx cy, countedFor 0 0 cx cy → alive seamBoard cx cy → 1 ≤ n) ∧
    countedFor 0 0 (WIDTH - 1) 0 ∧ countedFor (WIDTH - 1) 0 0 0 ∧
    countedFor 0 0 0 (HEIGHT - 1) ∧ countedFor 0 (HEIGHT - 1) 0 0 ∧
    countedFor 0 0 (WIDTH - 1) (HEIGHT - 1) ∧ countedFor (WIDTH - 1) (HEIGHT - 1) 0 0 ∧
    countedFor (WIDTH - 1) 0 0 (HEIGHT - 1) ∧ countedFor 0 (HEIGHT - 1) (WIDTH - 1) 0 :=
  ⟨⟨seamBoard_alive 29 0 (by decide) (by decide) (by decide),
      seamBoard_alive 0 29 (by decide) (by decide) (by decide),
      seamBoard_alive 29 29 (by decide) (by decide) (by decide)⟩,
    seamBoard_neighbors,
    neighbors_counts_torus seamBoard seamBoard_length 0 0 (by decide) (by decide)⟩

/-- C1: for every current grid and every `next` buffer (each `BOARD_SIZE`
cells), `tick` succeeds, and for every in-range `(x, y)` with `n` the value
of `neighbors` on the pre-step grid, the cell at `(x, y)` of the new current
generation is alive if and only if `n = 3`, or the cell was alive and `n = 2`. -/
theorem tick_rule (cur nxt : cells) (hc : cur.length = BOARD_SIZE)
    (hn : nxt.length = BOARD_SIZE) :
    ∃ cur' nxt', tick cur nxt = .ok (cur', nxt') ∧
      ∀ x y : Int, 0 ≤ x ∧ x < WIDTH → 0 ≤ y ∧ y < HEIGHT →
        ∃ n, neighbors cur x y = .ok n ∧
          (alive cur' x y ↔ n = 3 ∨ (alive cur x y ∧ n = 2)) := by
  rw [BOARD_SIZE_eq] at hc hn
  refine ⟨step cur, cur, tick_eq cur nxt hc hn, ?_⟩
  intro x y hx hy
  refine ⟨specNeighbors cur x y, neighbors_ok cur hc x y hx hy, ?_⟩
  unfold alive
  rw [cellAt_step cur x y hx hy]
  exact nextCell_alive cur x y

theorem tick_rule_witness :
    ∃ cur' nxt', tick (gridOf [(1, 0), (2, 1)]) emptyBoard = .ok (cur', nxt') ∧
      ∀ x y : Int, 0 ≤ x ∧ x < WIDTH → 0 ≤ y ∧ y < HEIGHT →
        ∃ n, neighbors (gridOf [(1, 0), (2, 1)]) x y = .ok n ∧
          (alive cur' x y ↔ n = 3 ∨ (alive (gridOf [(1, 0), (2, 1)]) x y ∧ n = 2)) :=
  tick_rule (gridOf [(1, 0), (2, 1)]) emptyBoard (tabulate_length _) emptyBoard_length

/-- C3: from the 30x30 grid whose live cells are exactly `(1,0)`, `(2,1)`,
`(0,2)`, `(1,2)`, `(2,2)` (all `ON`, the rest `OFF`), one `tick` with any
`next` buffer leaves a current generation whose live cells are exactly
`(0,1)`, `(2,1)`, `(1,2)`, `(2,2)`, `(1,3)`, every other cell being dead. -/
theorem glider_tick (nxt : cells) (hn : nxt.length = BOARD_SIZE) :
    (∀ x y : Int, 0 ≤ x ∧ x < WIDTH → 0 ≤ y ∧ y < HEIGHT →
      cellAt glider0 x y =
        if (x, y) ∈ ([(1, 0), (2, 1), (0, 2), (1, 2), (2, 2)] : List (Int × Int))
        then ON else OFF) ∧
    ∃ cur', tick glider0 nxt = .ok (cur', glider0) ∧
      cur' = gridOf [(0, 1), (2, 1), (1, 2), (2, 2), (1, 3)] ∧
      ∀ x y : Int, 0 ≤ x ∧ x < WIDTH → 0 ≤ y ∧ y < HEIGHT →
        (alive cur' x y ↔
          (x, y) ∈ ([(0, 1), (2, 1), (1, 2), (2, 2), (1, 3)] : List (Int × Int))) := by
  rw [BOARD_SIZE_eq] at hn
  refine ⟨fun x y hx hy => cellAt_gridOf _ x y hx hy, step glider0,
    tick_eq glider0 nxt glider0_length hn, step_glider0, ?_⟩
  intro x y hx hy
  rw [step_glider0]
  exact alive_gridOf _ x y hx hy

theorem glider_tick_witness :
    (∀ x y : Int, 0 ≤ x ∧ x < WIDTH → 0 ≤ y ∧ y < HEIGHT →
      cellAt glider0 x y =
        if (x, y) ∈ ([(1, 0), (2, 1), (0, 2), (1, 2), (2, 2)] : List (Int × Int))
        then ON else OFF) ∧
    ∃ cur', tick glider0 emptyBoard = .ok (cur', glider0) ∧
      cur' = gridOf [(0, 1), (2, 1), (1, 2), (2, 2), (1, 3)] ∧
      ∀ x y : Int, 0 ≤ x ∧ x < WIDTH → 0 ≤ y ∧ y < HEIGHT →
        (alive cur' x y ↔
          (x, y) ∈ ([(0, 1), (2, 1), (1, 2), (2, 2), (1, 3)] : List (Int × Int))) :=
  glider_tick emptyBoard emptyBoard_length

/-- C4: the generation `tick` produces depends only on the pre-step current
generation. For every grid and any two `next` buffers the new current
generations agree (both are `step cur`), and a second `tick`, whatever the
second buffer holds at that point, yields `step (step cur)`. -/
theorem tick_ignores_next (cur next1 next2 next3 : cells) (hc : cur.length = BOARD_SIZE)
    (h1 : next1.length = BOARD_SIZE) (h2 : next2.length = BOARD_SIZE)
    (h3 : next3.length = BOARD_SIZE) :
    tick cur next1 = .ok (step cur, cur) ∧
    (tick cur next1).map Prod.fst = (tick cur next2).map Prod.fst ∧
    (tick cur next1 >>= fun p => tick p.1 p.2) = .ok (step (step cur), step cur) ∧
    (tick cur next1 >>= fun p => tick p.1 next3) = .ok (step (step cur), step cur) := by
  rw [BOARD_SIZE_eq] at hc h1 h2 h3
  refine ⟨tick_eq cur next1 hc h1, ?_, ?_, ?_⟩
  · rw [tick_eq cur next1 hc h1, tick_eq cur next2 hc h2]
  · rw [tick_eq cur next1 hc h1, ok_bind]
    simp only []
    exact tick_eq (step cur) cur (step_length cur) hc
  · rw [tick_eq cur next1 hc h1, ok_bind]
    simp only []
    exact tick_eq (step cur) next3 (step_length cur) h3

theorem tick_ignores_next_witness :
    tick glider0 emptyBoard = .ok (step glider0, glider0) ∧
    (tick glider0 emptyBoard).map Prod.fst = (tick glider0 glider0).map Prod.fst ∧
    (tick glider0 emptyBoard >>= fun p => tick p.1 p.2)
      = .ok (step (step glider0), step glider0) ∧
    (tick glider0 emptyBoard >>= fun p => tick p.1 (gridOf [(5, 5)]))
      = .ok (step (step glider0), step glider0) :=
  tick_ignores_next glider0 emptyBoard glider0 (gridOf [(5, 5)]) glider0_length
    emptyBoard_length glider0_length (gridOf_length _)

/-- C7: for every grid and every pixel inside the rendered surface, `draw`
addresses the in-range cell `(px / SCALE, py / SCALE)` at flat index
`(py / SCALE) * WIDTH + (px / SCALE) < WIDTH * HEIGHT`, succeeds, flips that
cell (zero becomes `ON`, non-zero becomes `OFF`) and leaves every other cell
of the buffer unchanged. -/
theorem draw_flips_one_cell (g : cells) (hg : g.length = BOARD_SIZE) (px py : Int)
    (h : inSurface px py) :
    (0 ≤ Int.tdiv px SCALE ∧ Int.tdiv px SCALE < WIDTH) ∧
    (0 ≤ Int.tdiv py SCALE ∧ Int.tdiv py SCALE < HEIGHT) ∧
    (0 ≤ Int.tdiv py SCALE * WIDTH + Int.tdiv px SCALE ∧
      Int.tdiv py SCALE * WIDTH + Int.tdiv px SCALE < WIDTH * HEIGHT) ∧
    ∃ g', draw g px py = .ok g' ∧ g'.length = BOARD_SIZE ∧
      cellAt g' (Int.tdiv px SCALE) (Int.tdiv py SCALE) =
        (if cellAt g (Int.tdiv px SCALE) (Int.tdiv py SCALE) = 0 then ON else OFF) ∧
      ∀ j : Nat, j < BOARD_SIZE →
        (j : Int) ≠ Int.tdiv py SCALE * WIDTH + Int.tdiv px SCALE →
        g'.getD j 0 = g.getD j 0 := by
  rw [BOARD_SIZE_eq] at hg ⊢
  obtain ⟨hx0, hx1, hy0, hy1, -, -⟩ := inSurface_cell px py h
  have hp : INT_MIN ≤ px ∧ px ≤ INT_MAX := by
    obtain ⟨a, b, -, -⟩ := h
    simp only [INT_MIN, INT_MAX, WIDTH, SCALE] at *
    omega
  have hi : Int.tdiv py SCALE * WIDTH + Int.tdiv px SCALE
      = ((Int.tdiv py SCALE * WIDTH + Int.tdiv px SCALE).toNat : Nat) := by
    simp only [WIDTH]; omega
  have hlt : (Int.tdiv py SCALE * WIDTH + Int.tdiv px SCALE).toNat < g.length := by
    rw [hg]; simp only [WIDTH]; omega
  refine ⟨⟨hx0, hx1⟩, ⟨hy0, hy1⟩, ?_, _, draw_eq g px py _ hi hlt hp (by omega),
    ?_, ?_, ?_⟩
  · simp only [WIDTH, HEIGHT]; omega
  · rw [List.length_set]; exact hg
  · unfold cellAt
    rw [getD_set _ _ _ _ hlt, if_pos rfl, toggled_eq]
  · intro j _ hne
    rw [getD_set _ _ _ _ hlt, if_neg]
    omega

theorem draw_flips_one_cell_witness :
    (0 ≤ Int.tdiv 749 SCALE ∧ Int.tdiv 749 SCALE < WIDTH) ∧
    (0 ≤ Int.tdiv 26 SCALE ∧ Int.tdiv 26 SCALE < HEIGHT) ∧
    (0 ≤ Int.tdiv 26 SCALE * WIDTH + Int.tdiv 749 SCALE ∧
      Int.tdiv 26 SCALE * WIDTH + Int.tdiv 749 SCALE < WIDTH * HEIGHT) ∧
    ∃ g', draw glider0 749 26 = .ok g' ∧ g'.length = BOARD_SIZE ∧
      cellAt g' (Int.tdiv 749 SCALE) (Int.tdiv 26 SCALE) =
        (if cellAt glider0 (Int.tdiv 749 SCALE) (Int.tdiv 26 SCALE) = 0 then ON else OFF) ∧
      ∀ j : Nat, j < BOARD_SIZE →
        (j : Int) ≠ Int.tdiv 26 SCALE * WIDTH + Int.tdiv 749 SCALE →
        g'.getD j 0 = glider0.getD j 0 :=
  draw_flips_one_cell glider0 glider0_length 749 26 (by decide)

/-- C6: `draw` is its own inverse on binary grids: for every grid whose cells
are each `OFF` or `ON` and every pixel inside the rendered surface, two
successive `draw`s at that pixel succeed and give back the original grid. -/
theorem draw_twice (g : cells) (hg : g.length = BOARD_SIZE) (hb : Binary g)
    (px py : Int) (h : inSurface px py) :
    (draw g px py >>= fun g' => draw g' px py) = .ok g := by
  rw [BOARD_SIZE_eq] at hg
  obtain ⟨hx0, hx1, hy0, hy1, -, -⟩ := inSurface_cell px py h
  have hp : INT_MIN ≤ px ∧ px ≤ INT_MAX := by
    obtain ⟨a, b, -, -⟩ := h
    simp only [INT_MIN, INT_MAX, WIDTH, SCALE] at *
    omega
  have hi : Int.tdiv py SCALE * WIDTH + Int.tdiv px SCALE
      = ((Int.tdiv py SCALE * WIDTH + Int.tdiv px SCALE).toNat : Nat) := by
    simp only [WIDTH]; omega
  have hlt : (Int.tdiv py SCALE * WIDTH + Int.tdiv px SCALE).toNat < g.length := by
    rw [hg]; simp only [WIDTH]; omega
  generalize (Int.tdiv py SCALE * WIDTH + Int.tdiv px SCALE).toNat = i at hi hlt
  have hlt' : i < (g.set i (toggled (g.getD i 0))).length := by
    rw [List.length_set]; exact hlt
  rw [draw_eq g px py i hi hlt hp (by omega), ok_bind,
    draw_eq _ px py i hi hlt' hp (by rw [List.length_set]; omega)]
  congr 1
  apply cells_ext _ _ (by rw [List.length_set, List.length_set]; exact hg) hg
  intro j _
  rw [getD_set _ _ _ _ hlt']
  split
  · rename_i e
    subst e
    rw [getD_set _ _ _ _ hlt, if_pos rfl, toggled_toggled _ (binary_getD g hb _)]
  · rename_i e
    rw [getD_set _ _ _ _ hlt, if_neg e]

theorem draw_twice_witness :
    (draw emptyBoard 37 712 >>= fun g' => draw g' 37 712) = .ok emptyBoard :=
  draw_twice emptyBoard emptyBoard_length emptyBoard_binary 37 712 (by decide)

/-- C5 fails as stated: the pixel `(750, 0)` lies outside the rendered surface
and its computed cell `(30, 0)` is outside the grid, yet `draw` succeeds on
the empty board and changes the state of cell `(0, 1)`. -/
theorem outside_pixel_flips_a_cell :
    ¬((0 ≤ Int.tdiv 750 SCALE ∧ Int.tdiv 750 SCALE < WIDTH) ∧
      (0 ≤ Int.tdiv 0 SCALE ∧ Int.tdiv 0 SCALE < HEIGHT)) ∧
    ∃ g', draw emptyBoard 750 0 = .ok g' ∧
      cellAt emptyBoard 0 1 = OFF ∧ cellAt g' 0 1 = ON := by
  refine ⟨by decide, _, draw_eq emptyBoard 750 0 30 (by decide)
    (by rw [emptyBoard_length]; decide) (by decide) (by rw [emptyBoard_length]), ?_, ?_⟩
  · show emptyBoard.getD 30 0 = OFF
    exact emptyBoard_getD 30
  · show (emptyBoard.set 30 (toggled (emptyBoard.getD 30 0))).getD 30 0 = ON
    rw [getD_set _ _ _ _ (by rw [emptyBoard_length]; decide), if_pos rfl,
      emptyBoard_getD 30]
    rfl

/-- C5 (amended): for a pixel whose computed cell `(x, y) = (px / SCALE,
py / SCALE)` is outside the grid, `draw` is decided by the flat index
`i = y * WIDTH + x`. When `0 <= i < WIDTH * HEIGHT` it succeeds, flips the
cell stored at `i`, which is the grid cell `(i mod WIDTH, i div WIDTH)` and
not the computed cell, and leaves every other cell unchanged; otherwise it
fails (out-of-range access or signed overflow) and returns no grid. -/
theorem draw_outside_grid (g : cells) (hg : g.length = BOARD_SIZE) (px py : Int)
    (hpx : INT_MIN ≤ px ∧ px ≤ INT_MAX)
    (hout : ¬((0 ≤ Int.tdiv px SCALE ∧ Int.tdiv px SCALE < WIDTH) ∧
      (0 ≤ Int.tdiv py SCALE ∧ Int.tdiv py SCALE < HEIGHT))) :
    (0 ≤ Int.tdiv py SCALE * WIDTH + Int.tdiv px SCALE ∧
        Int.tdiv py SCALE * WIDTH + Int.tdiv px SCALE < WIDTH * HEIGHT →
      ∃ (i : Nat) (g' : cells),
        (i : Int) = Int.tdiv py SCALE * WIDTH + Int.tdiv px SCALE ∧
        ((i : Int) % WIDTH, (i : Int) / WIDTH) ≠ (Int.tdiv px SCALE, Int.tdiv py SCALE) ∧
        draw g px py = .ok g' ∧ g'.length = BOARD_SIZE ∧
        g'.getD i 0 = (if g.getD i 0 = 0 then ON else OFF) ∧
        ∀ j : Nat, j < BOARD_SIZE → j ≠ i → g'.getD j 0 = g.getD j 0) ∧
    (¬(0 ≤ Int.tdiv py SCALE * WIDTH + Int.tdiv px SCALE ∧
        Int.tdiv py SCALE * WIDTH + Int.tdiv px SCALE < WIDTH * HEIGHT) →
      draw g px py = .error .overflow ∨ draw g px py = .error .outOfRange) := by
  rw [BOARD_SIZE_eq] at hg ⊢
  constructor
  · intro hin
    have hi : Int.tdiv py SCALE * WIDTH + Int.tdiv px SCALE
        = ((Int.tdiv py SCALE * WIDTH + Int.tdiv px SCALE).toNat : Nat) := by
      simp only [WIDTH, HEIGHT] at hin ⊢; omega
    have hlt : (Int.tdiv py SCALE * WIDTH + Int.tdiv px SCALE).toNat < g.length := by
      rw [hg]; simp only [WIDTH, HEIGHT] at hin ⊢; omega
    refine ⟨_, _, hi.symm, ?_, draw_eq g px py _ hi hlt hpx (by omega),
      by rw [List.length_set]; exact hg, ?_, ?_⟩
    · intro he
      simp only [Prod.mk.injEq] at he
      apply hout
      simp only [WIDTH, HEIGHT] at he hin ⊢
      omega
    · rw [getD_set _ _ _ _ hlt, if_pos rfl, toggled_eq]
    · intro j _ hne
      rw [getD_set _ _ _ _ hlt, if_neg hne]
  · intro hnot
    exact draw_fault g px py hg hnot

theorem draw_outside_grid_witness :
    (0 ≤ Int.tdiv 0 SCALE * WIDTH + Int.tdiv 750 SCALE ∧
        Int.tdiv 0 SCALE * WIDTH + Int.tdiv 750 SCALE < WIDTH * HEIGHT →
      ∃ (i : Nat) (g' : cells),
        (i : Int) = Int.tdiv 0 SCALE * WIDTH + Int.tdiv 750 SCALE ∧
        ((i : Int) % WIDTH, (i : Int) / WIDTH) ≠ (Int.tdiv 750 SCALE, Int.tdiv 0 SCALE) ∧
        draw emptyBoard 750 0 = .ok g' ∧ g'.length = BOARD_SIZE ∧
        g'.getD i 0 = (if emptyBoard.getD i 0 = 0 then ON else OFF) ∧
        ∀ j : Nat, j < BOARD_SIZE → j ≠ i → g'.getD j 0 = emptyBoard.getD j 0) ∧
    (¬(0 ≤ Int.tdiv 0 SCALE * WIDTH + Int.tdiv 750 SCALE ∧
        Int.tdiv 0 SCALE * WIDTH + Int.tdiv 750 SCALE < WIDTH * HEIGHT) →
      draw emptyBoard 750 0 = .error .overflow ∨
        draw emptyBoard 750 0 = .error .outOfRange) :=
  draw_outside_grid emptyBoard emptyBoard_length 750 0 (by decide) (by decide)

/-- C9: the binary cell encoding is an invariant. If every cell of the current
generation is `OFF` or `ON`, the same holds after `tick` with any `next`
buffer and after `draw` at any pixel inside the rendered surface, both of
which succeed; hence after any sequence of in-surface draws and ticks from
the all-zero initial buffers the run succeeds and the current generation
contains only `OFF` and `ON`. -/
theorem binary_invariant (cur nxt : cells) (hc : cur.length = BOARD_SIZE)
    (hn : nxt.length = BOARD_SIZE) (hb : Binary cur) (px py : Int) (hs : inSurface px py)
    (events : List Event) (hev : ∀ e ∈ events, e.onSurface) :
    (∃ cur' nxt', tick cur nxt = .ok (cur', nxt') ∧ Binary cur') ∧
    (∃ g', draw cur px py = .ok g' ∧ Binary g') ∧
    (∃ w, run initialWorld events = .ok w ∧ Binary w.current_generation) := by
  rw [BOARD_SIZE_eq] at hc hn
  refine ⟨⟨step cur, cur, tick_eq cur nxt hc hn, step_binary cur hb⟩, ?_, ?_⟩
  · obtain ⟨w', h1, -, -, hb'⟩ :=
      handle_inv ⟨cur, nxt⟩ (.mouse px py) hc hn hb hs
    unfold handle at h1
    cases hd : draw cur px py with
    | error e =>
      simp only [hd] at h1
      exact absurd h1 (by rw [error_bind]; exact fun h => by cases h)
    | ok g' =>
      simp only [hd] at h1
      rw [ok_bind] at h1
      cases h1
      exact ⟨g', rfl, hb'⟩
  · obtain ⟨w, h1, -, -, hb'⟩ :=
      run_inv events initialWorld emptyBoard_length emptyBoard_length emptyBoard_binary hev
    exact ⟨w, h1, hb'⟩

theorem binary_invariant_witness :
    (∃ cur' nxt', tick glider0 emptyBoard = .ok (cur', nxt') ∧ Binary cur') ∧
    (∃ g', draw glider0 749 0 = .ok g' ∧ Binary g') ∧
    (∃ w, run initialWorld [.mouse 30 5, .mouse 60 30, .space, .mouse 749 749, .space]
      = .ok w ∧ Binary w.current_generation) :=
  binary_invariant glider0 emptyBoard glider0_length emptyBoard_length
    (gridOf_binary _)
    749 0 (by decide)
    [.mouse 30 5, .mouse 60 30, .space, .mouse 749 749, .space]
    (by
      intro e he
      simp only [List.mem_cons, List.mem_singleton, List.mem_nil_iff, or_false] at he
      rcases he with h | h | h | h | h <;> subst h <;> decide)

/-- C10: `tick` commutes with toroidal translation. Writing `shift dx dy g` for
the grid whose cell `(x, y)` holds `g((x - dx) mod WIDTH, (y - dy) mod HEIGHT)`,
for every grid and every integer shift the generation `tick` produces from the
shifted grid is the shift of the generation it produces from the grid itself,
whatever the `next` buffers hold. -/
theorem tick_commutes_with_shift (g next1 next2 : cells) (hg : g.length = BOARD_SIZE)
    (h1 : next1.length = BOARD_SIZE) (h2 : next2.length = BOARD_SIZE) (dx dy : Int) :
    (∀ x y : Int, 0 ≤ x ∧ x < WIDTH → 0 ≤ y ∧ y < HEIGHT →
      cellAt (shift dx dy g) x y = cellAt g ((x - dx) % WIDTH) ((y - dy) % HEIGHT)) ∧
    ∃ g', tick g next1 = .ok (g', g) ∧
      tick (shift dx dy g) next2 = .ok (shift dx dy g', shift dx dy g) := by
  rw [BOARD_SIZE_eq] at hg h1 h2
  refine ⟨fun x y hx hy => cellAt_shift g dx dy x y hx hy, step g,
    tick_eq g next1 hg h1, ?_⟩
  rw [tick_eq (shift dx dy g) next2 (shift_length g dx dy) h2, step_shift]

theorem tick_commutes_with_shift_witness :
    (∀ x y : Int, 0 ≤ x ∧ x < WIDTH → 0 ≤ y ∧ y < HEIGHT →
      cellAt (shift 29 (-31) glider0) x y
        = cellAt glider0 ((x - 29) % WIDTH) ((y - (-31)) % HEIGHT)) ∧
    ∃ g', tick glider0 emptyBoard = .ok (g', glider0) ∧
      tick (shift 29 (-31) glider0) glider0
        = .ok (shift 29 (-31) g', shift 29 (-31) glider0) :=
  tick_commutes_with_shift glider0 emptyBoard glider0 glider0_length emptyBoard_length
    glider0_length 29 (-31)

end GameOfLife
